import Mathlib

/-!
Verification of the order-commit and inventory-consistency subsystem of the
Kedai 578 point-of-sale application.

The definitions below are a shallow embedding of the TypeScript source:
* cart operations `addToCart`, `removeFromCart`, `updateQuantity` and the
  derived `cartTotal` from `src/App.tsx`;
* the checkout orchestrator `handleCheckout` from `src/App.tsx`, modelled as a
  pure function of the checkout input, a store oracle (deciding which of the
  three store calls fail, and the id the store assigns to the inserted
  transaction row) and the current store state;
* the analytics aggregations (`fetchAnalytics` in `src/App.tsx`): daily sales
  series and top-products ranking;
* the legacy sqlite endpoint's relative stock decrement
  (`UPDATE products SET stock = stock - ? WHERE id = ? AND stock > -1`).

Numbers are embedded as `Int` (prices, stocks, quantities are JS numbers used
integrally; `-1` is the "unlimited stock" sentinel).  The blank amount-paid
field (`''` in the source) is `Option.none`.  JavaScript's
`Array.prototype.sort` is stable (ES2019) and object string keys enumerate in
insertion order; the aggregations are modelled accordingly with an
insertion-order upsert fold and a stable insertion sort.
-/

namespace Kedai

/-- Product row (`products` table / `Product` interface in `src/App.tsx`). -/
structure Product where
  id : Int
  name : String
  category : String
  price : Int
  stock : Int
  image_url : Option String
  deriving Repr, DecidableEq

/-- Cart line (`CartItem extends Product { quantity }` in `src/App.tsx`):
a full product snapshot frozen at add-time plus a quantity. -/
structure CartItem where
  id : Int
  name : String
  category : String
  price : Int
  stock : Int
  image_url : Option String
  quantity : Int
  deriving Repr, DecidableEq

/-- `{ ...product, quantity: q }`: a cart line built from a product snapshot. -/
def mkLine (p : Product) (q : Int) : CartItem :=
  ⟨p.id, p.name, p.category, p.price, p.stock, p.image_url, q⟩

/-- `cartTotal = cart.reduce((sum, item) => sum + item.price * item.quantity, 0)`. -/
def cartTotal (cart : List CartItem) : Int :=
  cart.foldl (fun sum item => sum + item.price * item.quantity) 0

/-- `addToCart` from `src/App.tsx`: rejected when the product is stock-limited
with stock ≤ 0; otherwise increments the existing line's quantity by 1, or
appends a fresh line with quantity 1. -/
def addToCart (product : Product) (cart : List CartItem) : List CartItem :=
  if product.stock ≠ -1 ∧ product.stock ≤ 0 then cart
  else if cart.any (fun item => item.id = product.id) then
    cart.map (fun item =>
      if item.id = product.id then { item with quantity := item.quantity + 1 } else item)
  else cart ++ [mkLine product 1]

/-- `removeFromCart` from `src/App.tsx`. -/
def removeFromCart (productId : Int) (cart : List CartItem) : List CartItem :=
  cart.filter (fun item => item.id ≠ productId)

/-- `updateQuantity` from `src/App.tsx`: on the targeted line the new quantity
is `max(1, quantity + delta)`, except that a positive delta on a stock-limited
line is dropped when the new quantity would exceed the snapshot stock. -/
def updateQuantity (productId : Int) (delta : Int) (cart : List CartItem) : List CartItem :=
  cart.map (fun item =>
    if item.id = productId then
      let newQty := max 1 (item.quantity + delta)
      if delta > 0 ∧ item.stock ≠ -1 ∧ newQty > item.stock then item
      else { item with quantity := newQty }
    else item)

/-- Payload of the step-1 insert into `transactions` (the store assigns the id). -/
structure TransactionInsert where
  total_amount : Int
  customer_name : String
  order_type : String
  amount_paid : Int
  change_amount : Int
  payment_method : String
  deriving Repr, DecidableEq

/-- Stored `transactions` row: the insert payload plus the store-assigned id. -/
structure TransactionRow extends TransactionInsert where
  id : Int
  deriving Repr, DecidableEq

/-- Stored `transaction_items` row (step-2 insert payload). -/
structure TransactionItemRow where
  transaction_id : Int
  product_id : Int
  product_name : String
  quantity : Int
  price : Int
  deriving Repr, DecidableEq

/-- The durable relational store: `products`, `transactions`,
`transaction_items`. -/
structure StoreState where
  products : List Product
  transactions : List TransactionRow
  transaction_items : List TransactionItemRow
  deriving Repr, DecidableEq

/-- A call issued to the store by the checkout orchestrator.  Note that the
stock update issued by `handleCheckout` carries an absolute new stock value
(`.update({ stock: item.stock - item.quantity })` in the source). -/
inductive StoreCall where
  | insertTransaction (row : TransactionInsert)
  | insertItems (rows : List TransactionItemRow)
  | updateProductStock (productId : Int) (newStock : Int)
  deriving Repr, DecidableEq

/-- Checkout outcomes distinguished by `handleCheckout`: the three local
precondition rejections (silent return / two distinct alerts) and the single
generic catch (`alert("Checkout gagal: " + err.message)`) shared by step-1 and
step-2 store failures. -/
inductive CheckoutError where
  | emptyCart
  | missingCustomer
  | insufficientPayment
  | checkoutFailed (msg : String)
  deriving Repr, DecidableEq

/-- Oracle describing the store's behaviour during one commit: whether step 1
(transaction insert) fails and with which message, the id assigned on success,
whether step 2 (item insert) fails, and which per-product step-3 stock updates
fail. -/
structure StoreOracle where
  txError : Option String
  nextTxId : Int
  itemsError : Option String
  stockError : Int → Option String

instance {E A : Type} [DecidableEq E] [DecidableEq A] : DecidableEq (Except E A) := fun
  | .error a, .error b =>
    if h : a = b then .isTrue (by rw [h]) else .isFalse (by intro hc; cases hc; exact h rfl)
  | .error _, .ok _ => .isFalse (by intro hc; cases hc)
  | .ok _, .error _ => .isFalse (by intro hc; cases hc)
  | .ok a, .ok b =>
    if h : a = b then .isTrue (by rw [h]) else .isFalse (by intro hc; cases hc; exact h rfl)

/-- Observable outcome of one `handleCheckout` run: the result surfaced to the
user, the store calls issued (in order, including failed ones), the cart after
the run, the store state after the run, and the per-item stock-update failures
logged via `console.error`. -/
structure CommitResult where
  result : Except CheckoutError Int
  calls : List StoreCall
  cartAfter : List CartItem
  storeAfter : StoreState
  warnings : List (Int × String)
  deriving Repr, DecidableEq

/-- Store semantics of the issued stock update: an assignment of the absolute
value `newStock` to every `products` row with the given id, regardless of the
row's current stock. -/
def applyAbsoluteStock (st : StoreState) (productId newStock : Int) : StoreState :=
  { st with products := st.products.map (fun p =>
      if p.id = productId then { p with stock := newStock } else p) }

/-- Step 3 of `handleCheckout`: the `for (const item of cart)` loop.  For each
stock-limited line it issues `update({ stock: item.stock - item.quantity })`;
a failed update is logged and the loop continues.  Returns the store state,
the issued calls and the logged warnings. -/
def step3 (oracle : StoreOracle) (st : StoreState) :
    List CartItem → StoreState × List StoreCall × List (Int × String)
  | [] => (st, [], [])
  | item :: rest =>
    if item.stock ≠ -1 then
      match oracle.stockError item.id with
      | some msg =>
        let r := step3 oracle st rest
        (r.1, StoreCall.updateProductStock item.id (item.stock - item.quantity) :: r.2.1,
          (item.id, msg) :: r.2.2)
      | none =>
        let r := step3 oracle (applyAbsoluteStock st item.id (item.stock - item.quantity)) rest
        (r.1, StoreCall.updateProductStock item.id (item.stock - item.quantity) :: r.2.1, r.2.2)
    else step3 oracle st rest

/-- The source guards the customer name with `if (!customerName.trim())`:
the checkout is rejected when the name trims to the empty string, i.e. when it
consists solely of whitespace.  Modelled character-wise (JS `trim` strips
leading and trailing whitespace, so the trimmed string is empty exactly when
every character is whitespace). -/
def isBlank (s : String) : Bool := s.toList.all Char.isWhitespace

/-- Input of one checkout: the cart and the order form fields.  A blank
amount-paid field is `none`. -/
structure CheckoutInput where
  cart : List CartItem
  customerName : String
  orderType : String
  amountPaid : Option Int
  paymentMethod : String

/-- `const paid = typeof amountPaid === 'number' ? amountPaid : total`:
a blank tendered amount defaults to the cart subtotal. -/
def paidOf (inp : CheckoutInput) : Int :=
  inp.amountPaid.getD (cartTotal inp.cart)

/-- The step-1 insert payload: computed total, customer, order type, tendered
amount, `change = max(0, paid - total)`, and payment method. -/
def txInsertOf (inp : CheckoutInput) : TransactionInsert :=
  ⟨cartTotal inp.cart, inp.customerName, inp.orderType, paidOf inp,
    max 0 (paidOf inp - cartTotal inp.cart), inp.paymentMethod⟩

/-- The step-2 insert payload: one row per cart line, all referencing the
transaction id from step 1 and carrying the name and price snapshots. -/
def itemRowsOf (inp : CheckoutInput) (txId : Int) : List TransactionItemRow :=
  inp.cart.map (fun item =>
    TransactionItemRow.mk txId item.id item.name item.quantity item.price)

/-- The write sequence of `handleCheckout` (the body of its `try` block):
step 1 inserts the transaction row (the store assigns the id), step 2 inserts
the item rows, step 3 runs the per-item stock-update loop.  A store failure in
step 1 or step 2 throws into the single generic catch
(`alert("Checkout gagal: " + err.message)`) and aborts; step-3 failures are
logged only.  On full success the cart is cleared. -/
def commitWrites (inp : CheckoutInput) (oracle : StoreOracle) (store : StoreState) :
    CommitResult :=
  match oracle.txError with
  | some msg =>
    ⟨Except.error (CheckoutError.checkoutFailed msg),
      [StoreCall.insertTransaction (txInsertOf inp)], inp.cart, store, []⟩
  | none =>
    let store1 :=
      { store with transactions := store.transactions ++ [⟨txInsertOf inp, oracle.nextTxId⟩] }
    match oracle.itemsError with
    | some msg =>
      ⟨Except.error (CheckoutError.checkoutFailed msg),
        [StoreCall.insertTransaction (txInsertOf inp),
          StoreCall.insertItems (itemRowsOf inp oracle.nextTxId)],
        inp.cart, store1, []⟩
    | none =>
      let store2 :=
        { store1 with
          transaction_items := store1.transaction_items ++ itemRowsOf inp oracle.nextTxId }
      let s3 := step3 oracle store2 inp.cart
      ⟨Except.ok oracle.nextTxId,
        StoreCall.insertTransaction (txInsertOf inp) ::
          StoreCall.insertItems (itemRowsOf inp oracle.nextTxId) :: s3.2.1,
        [], s3.1, s3.2.2⟩

/-- `handleCheckout` from `src/App.tsx`.  Preconditions in source order:
empty cart (silent return), blank trimmed customer name (alert), Cash with
paid < total (alert); then the three-step write sequence `commitWrites`. -/
def handleCheckout (inp : CheckoutInput) (oracle : StoreOracle) (store : StoreState) :
    CommitResult :=
  if inp.cart.isEmpty then
    ⟨Except.error CheckoutError.emptyCart, [], inp.cart, store, []⟩
  else if isBlank inp.customerName then
    ⟨Except.error CheckoutError.missingCustomer, [], inp.cart, store, []⟩
  else if inp.paymentMethod = "Cash" ∧ paidOf inp < cartTotal inp.cart then
    ⟨Except.error CheckoutError.insufficientPayment, [], inp.cart, store, []⟩
  else commitWrites inp oracle store

/-- Legacy sqlite endpoint (`POST /api/transactions` in the pre-Supabase
server): `UPDATE products SET stock = stock - ? WHERE id = ? AND stock > -1`,
a relative decrement computed by the store from its current value. -/
def legacyUpdateStock (db : List Product) (quantity productId : Int) : List Product :=
  db.map (fun p =>
    if p.id = productId ∧ p.stock > -1 then { p with stock := p.stock - quantity } else p)

/-- The stock value of the first `products` row with the given id. -/
def getStock (st : StoreState) (productId : Int) : Option Int :=
  (st.products.find? (fun p => p.id = productId)).map (fun p => p.stock)

/-- Insertion-order upsert used by the analytics `reduce` calls:
`acc[key] = (acc[key] || 0) + v` on a JS object, whose string keys enumerate
in insertion order. -/
def upsertAdd {K : Type} [DecidableEq K] (acc : List (K × Int)) (k : K) (v : Int) :
    List (K × Int) :=
  if acc.any (fun e => e.1 = k) then
    acc.map (fun e => if e.1 = k then (e.1, e.2 + v) else e)
  else acc ++ [(k, v)]

/-- Grouping fold of the analytics `reduce` calls: left fold of `upsertAdd`
over the raw rows, starting from the empty object. -/
def groupFold {K : Type} [DecidableEq K] (items : List (K × Int)) : List (K × Int) :=
  items.foldl (fun acc e => upsertAdd acc e.1 e.2) []

/-- Stable insertion: `x` is placed before the first element `y` with
`keep x y = true`. -/
def insStable {T : Type} (keep : T → T → Bool) (x : T) : List T → List T
  | [] => [x]
  | y :: ys => if keep x y then x :: y :: ys else y :: insStable keep x ys

/-- Stable insertion sort.  For a total preorder, with `keep x y` meaning
"`x` may stay before `y`" (true on ties), this computes the unique stable
sort, hence models `Array.prototype.sort` (stable per ES2019). -/
def sortStable {T : Type} (keep : T → T → Bool) : List T → List T
  | [] => []
  | x :: xs => insStable keep x (sortStable keep xs)

/-- Top-products view of `fetchAnalytics`: group the raw
`(product_name, quantity)` rows by name summing quantities, sort descending by
summed quantity (stable), keep the first 10. -/
def topProductsView (items : List (String × Int)) : List (String × Int) :=
  (sortStable (fun a b => decide (b.2 ≤ a.2)) (groupFold items)).take 10

/-- Raw `transactions` row as read by the sales aggregation: the timestamp in
milliseconds since epoch and the total amount. -/
structure SalesRow where
  timestamp : Nat
  total_amount : Int
  deriving Repr, DecidableEq

/-- Calendar-date key of a timestamp:
`new Date(ts).toISOString().split('T')[0]` renders the UTC day, so two
timestamps get the same key exactly when they fall in the same UTC day; day
indices are order-isomorphic (via `localeCompare` on equal-length ISO dates)
to the rendered strings. -/
def dateOf (ts : Nat) : Nat := ts / 86400000

/-- `slice(-n)`: the last `n` elements (the whole list when shorter). -/
def takeLast {T : Type} (n : Nat) (l : List T) : List T := l.drop (l.length - n)

/-- Daily sales series of `fetchAnalytics`: group all transactions by the
calendar date of their timestamp summing `total_amount`, sort ascending by
date, keep the last (most recent) 30 entries. -/
def salesSeries (txs : List SalesRow) : List (Nat × Int) :=
  takeLast 30 (sortStable (fun a b => decide (a.1 ≤ b.1))
    (groupFold (txs.map (fun t => (dateOf t.timestamp, t.total_amount)))))

/-- Total of the values carried by a key in a list of `(key, value)` rows:
the sum the aggregations are specified to compute per group. -/
def keySum {K : Type} [DecidableEq K] (l : List (K × Int)) (k : K) : Int :=
  ((l.filter (fun e => e.1 = k)).map (fun e => e.2)).sum

/-- Summed `total_amount` of the transactions falling on calendar date `d`. -/
def daySum (txs : List SalesRow) (d : Nat) : Int :=
  ((txs.filter (fun t => dateOf t.timestamp = d)).map (fun t => t.total_amount)).sum

/-- One cart operation of the Cart Aggregator. -/
inductive CartOp where
  | add (p : Product)
  | setQty (productId delta : Int)
  | remove (productId : Int)

/-- Apply one cart operation. -/
def applyOp (cart : List CartItem) : CartOp → List CartItem
  | .add p => addToCart p cart
  | .setQty pid d => updateQuantity pid d cart
  | .remove pid => removeFromCart pid cart

/-- Cart invariant: every line has quantity at least 1, and a stock-limited
line's quantity is within its snapshot stock ceiling. -/
def cartInv (cart : List CartItem) : Prop :=
  ∀ item ∈ cart, 1 ≤ item.quantity ∧ (item.stock ≠ -1 → item.quantity ≤ item.stock)

/-- An operation is fresh for a cart when it is not an `add` of a product
already present in the cart. -/
def freshOp (cart : List CartItem) : CartOp → Bool
  | .add p => cart.all (fun item => item.id ≠ p.id)
  | .setQty _ _ => true
  | .remove _ => true

/-- A run of operations is fresh when each step is fresh for the cart it is
applied to. -/
def freshRun : List CartItem → List CartOp → Bool
  | _, [] => true
  | cart, op :: rest => freshOp cart op && freshRun (applyOp cart op) rest

/-- Stock-limited product with stock 1, used to exhibit repeated `add`
overshooting the snapshot ceiling. -/
def exProductS1 : Product := ⟨1, "Keripik Kaca", "Snack", 5000, 1, none⟩

/-- Example stock-limited product: stock 10. -/
def exProduct : Product := ⟨1, "Ceker", "Topping", 2000, 10, none⟩

/-- Cart line for `exProduct` snapshotted at stock 10, quantity 1. -/
def exLine : CartItem := ⟨1, "Ceker", "Topping", 2000, 10, none, 1⟩

/-- Store oracle on which every call succeeds; the store assigns id `n` to the
inserted transaction. -/
def okOracle (n : Int) : StoreOracle := ⟨none, n, none, fun _ => none⟩

/-- Store oracle on which the step-1 transaction insert fails. -/
def failTxOracle (msg : String) : StoreOracle := ⟨some msg, 0, none, fun _ => none⟩

/-- Store oracle on which step 1 succeeds (assigning id `n`) and the step-2
item insert fails. -/
def failItemsOracle (msg : String) (n : Int) : StoreOracle := ⟨none, n, some msg, fun _ => none⟩

/-- Checkout input selling one unit of `exProduct`, Cash, tendered 5000. -/
def exInput : CheckoutInput := ⟨[exLine], "Budi", "Dine In", some 5000, "Cash"⟩

/-- Store holding only `exProduct` (stock 10) and no history. -/
def exStore : StoreState := ⟨[exProduct], [], []⟩

/-- The round-trip cart of §8 of the spec: `{price:10000, qty:2}` and
`{price:5000, qty:1}` (both unlimited products). -/
def exCart5 : List CartItem :=
  [⟨1, "Seblak Spesial", "Seblak", 10000, -1, none, 2⟩,
    ⟨2, "Es Teh Manis", "Minuman", 5000, -1, none, 1⟩]

/-- Checkout input committing `exCart5` with payment method Cash and
tendered 30000. -/
def exInput5 : CheckoutInput := ⟨exCart5, "Budi", "Dine In", some 30000, "Cash"⟩

/-- Two stock-limited cart lines (both snapshotted at stock 50). -/
def exCartW : List CartItem :=
  [⟨1, "Ceker", "Topping", 2000, 50, none, 2⟩, ⟨2, "Bakso", "Topping", 2000, 50, none, 3⟩]

/-- Oracle on which steps 1 and 2 succeed (id 9) but the stock update for
product 1 fails with "net down"; the update for product 2 succeeds. -/
def exOracleW : StoreOracle :=
  ⟨none, 9, none, fun pid => if pid = 1 then some "net down" else none⟩

/-- Store backing `exCartW`. -/
def exStoreW : StoreState :=
  ⟨[⟨1, "Ceker", "Topping", 2000, 50, none⟩, ⟨2, "Bakso", "Topping", 2000, 50, none⟩], [], []⟩

/-!  Theorems.  First a toolbox of lemmas about the checkout write sequence;
the claim theorems follow. -/

theorem handleCheckout_run (inp : CheckoutInput) (oracle : StoreOracle) (store : StoreState)
    (h1 : inp.cart ≠ []) (h2 : isBlank inp.customerName = false)
    (h3 : ¬(inp.paymentMethod = "Cash" ∧ paidOf inp < cartTotal inp.cart)) :
    handleCheckout inp oracle store = commitWrites inp oracle store := by
  simp [handleCheckout, h1, h2, h3]

theorem commitWrites_txFail (inp : CheckoutInput) (oracle : StoreOracle) (store : StoreState)
    (msg : String) (ht : oracle.txError = some msg) :
    commitWrites inp oracle store =
      ⟨Except.error (CheckoutError.checkoutFailed msg),
        [StoreCall.insertTransaction (txInsertOf inp)], inp.cart, store, []⟩ := by
  simp [commitWrites, ht]

theorem commitWrites_itemsFail (inp : CheckoutInput) (oracle : StoreOracle) (store : StoreState)
    (msg : String) (ht : oracle.txError = none) (hi : oracle.itemsError = some msg) :
    commitWrites inp oracle store =
      ⟨Except.error (CheckoutError.checkoutFailed msg),
        [StoreCall.insertTransaction (txInsertOf inp),
          StoreCall.insertItems (itemRowsOf inp oracle.nextTxId)],
        inp.cart,
        { store with transactions := store.transactions ++ [⟨txInsertOf inp, oracle.nextTxId⟩] },
        []⟩ := by
  simp [commitWrites, ht, hi]

theorem commitWrites_ok (inp : CheckoutInput) (oracle : StoreOracle) (store : StoreState)
    (ht : oracle.txError = none) (hi : oracle.itemsError = none) :
    commitWrites inp oracle store =
      ⟨Except.ok oracle.nextTxId,
        StoreCall.insertTransaction (txInsertOf inp) ::
          StoreCall.insertItems (itemRowsOf inp oracle.nextTxId) ::
          (step3 oracle
            ⟨store.products, store.transactions ++ [⟨txInsertOf inp, oracle.nextTxId⟩],
              store.transaction_items ++ itemRowsOf inp oracle.nextTxId⟩ inp.cart).2.1,
        [],
        (step3 oracle
          ⟨store.products, store.transactions ++ [⟨txInsertOf inp, oracle.nextTxId⟩],
            store.transaction_items ++ itemRowsOf inp oracle.nextTxId⟩ inp.cart).1,
        (step3 oracle
          ⟨store.products, store.transactions ++ [⟨txInsertOf inp, oracle.nextTxId⟩],
            store.transaction_items ++ itemRowsOf inp oracle.nextTxId⟩ inp.cart).2.2⟩ := by
  simp [commitWrites, ht, hi]

theorem step3_transactions (oracle : StoreOracle) (cart : List CartItem) :
    ∀ st : StoreState, (step3 oracle st cart).1.transactions = st.transactions := by
  induction cart with
  | nil => intro st; rfl
  | cons item rest ih =>
    intro st
    by_cases hlim : item.stock ≠ -1
    · cases herr : oracle.stockError item.id with
      | some msg => simp [step3, hlim, herr, ih]
      | none => simp [step3, hlim, herr, ih, applyAbsoluteStock]
    · simp [step3, hlim, ih]

theorem step3_transaction_items (oracle : StoreOracle) (cart : List CartItem) :
    ∀ st : StoreState, (step3 oracle st cart).1.transaction_items = st.transaction_items := by
  induction cart with
  | nil => intro st; rfl
  | cons item rest ih =>
    intro st
    by_cases hlim : item.stock ≠ -1
    · cases herr : oracle.stockError item.id with
      | some msg => simp [step3, hlim, herr, ih]
      | none => simp [step3, hlim, herr, ih, applyAbsoluteStock]
    · simp [step3, hlim, ih]

theorem step3_calls_mem (oracle : StoreOracle) (cart : List CartItem) :
    ∀ st : StoreState, ∀ item ∈ cart, item.stock ≠ -1 →
      StoreCall.updateProductStock item.id (item.stock - item.quantity) ∈
        (step3 oracle st cart).2.1 := by
  induction cart with
  | nil => intro st item h; cases h
  | cons x rest ih =>
    intro st item hmem hlim
    by_cases hx : x.stock ≠ -1
    · cases herr : oracle.stockError x.id with
      | some msg =>
        rcases List.mem_cons.mp hmem with h | h
        · subst h; simp [step3, hx, herr]
        · simp only [step3, if_pos hx, herr]
          exact List.mem_cons_of_mem _ (ih st item h hlim)
      | none =>
        rcases List.mem_cons.mp hmem with h | h
        · subst h; simp [step3, hx, herr]
        · simp only [step3, if_pos hx, herr]
          exact List.mem_cons_of_mem _
            (ih (applyAbsoluteStock st x.id (x.stock - x.quantity)) item h hlim)
    · rcases List.mem_cons.mp hmem with h | h
      · subst h; exact absurd hlim hx
      · simp only [step3, if_neg hx]
        exact ih st item h hlim

theorem step3_warnings_mem (oracle : StoreOracle) (cart : List CartItem) :
    ∀ st : StoreState, ∀ item ∈ cart, ∀ msg : String, item.stock ≠ -1 →
      oracle.stockError item.id = some msg →
      (item.id, msg) ∈ (step3 oracle st cart).2.2 := by
  induction cart with
  | nil => intro st item h; cases h
  | cons x rest ih =>
    intro st item hmem msg hlim herr
    by_cases hx : x.stock ≠ -1
    · cases hxe : oracle.stockError x.id with
      | some m =>
        rcases List.mem_cons.mp hmem with h | h
        · subst h
          rw [herr] at hxe
          cases hxe
          simp [step3, hx, herr]
        · simp only [step3, if_pos hx, hxe]
          exact List.mem_cons_of_mem _ (ih st item h msg hlim herr)
      | none =>
        rcases List.mem_cons.mp hmem with h | h
        · subst h; rw [herr] at hxe; cases hxe
        · simp only [step3, if_pos hx, hxe]
          exact ih (applyAbsoluteStock st x.id (x.stock - x.quantity)) item h msg hlim herr
    · rcases List.mem_cons.mp hmem with h | h
      · subst h; exact absurd hlim hx
      · simp only [step3, if_neg hx]
        exact ih st item h msg hlim herr

theorem find?_stock_map (l : List Product) (pid v id2 : Int) :
    ((l.map (fun p => if p.id = pid then { p with stock := v } else p)).find?
        (fun p => p.id = id2)).map (fun p => p.stock) =
      ((l.find? (fun p => p.id = id2)).map (fun p => p.stock)).map
        (fun s => if id2 = pid then v else s) := by
  induction l with
  | nil => rfl
  | cons p rest ih =>
    by_cases hid2 : p.id = id2
    · by_cases hpid : p.id = pid
      · have h1 : id2 = pid := by rw [← hid2, hpid]
        simp [List.find?, hpid, hid2, h1]
      · have h1 : ¬id2 = pid := by rw [← hid2]; exact hpid
        simp [List.find?, hpid, hid2, h1]
    · by_cases hpid : p.id = pid
      · simp only [List.map_cons, if_pos hpid, List.find?]
        have : ((⟨p.id, p.name, p.category, p.price, v, p.image_url⟩ : Product).id = id2) = False :=
          by simp [hid2]
        simp only [this]
        simpa [List.find?, hid2] using ih
      · simp only [List.map_cons, if_neg hpid, List.find?]
        have : (decide (p.id = id2)) = false := by simp [hid2]
        simp only [this, cond_false]
        simpa [List.find?, hid2, this] using ih

theorem legacyUpdateStock_find? (db : List Product) (q pid : Int) :
    ((legacyUpdateStock db q pid).find? (fun p => p.id = pid)).map (fun p => p.stock) =
      (db.find? (fun p => p.id = pid)).map
        (fun p => if p.stock > -1 then p.stock - q else p.stock) := by
  induction db with
  | nil => rfl
  | cons p rest ih =>
    by_cases hid : p.id = pid
    · by_cases hs : p.stock > -1
      · simp [legacyUpdateStock, List.find?, hid, hs]
      · simp [legacyUpdateStock, List.find?, hid, hs]
    · have hcond : ¬(p.id = pid ∧ p.stock > -1) := fun hc => hid hc.1
      simp only [legacyUpdateStock, List.map_cons, if_neg hcond, List.find?]
      have hdec : (decide (p.id = pid)) = false := by simp [hid]
      simp only [hdec, cond_false]
      simpa [legacyUpdateStock] using ih

theorem getStock_applyAbsoluteStock (st : StoreState) (pid v id2 : Int) :
    getStock (applyAbsoluteStock st pid v) id2 =
      (getStock st id2).map (fun s => if id2 = pid then v else s) := by
  simpa [getStock, applyAbsoluteStock, Option.map_map] using
    find?_stock_map st.products pid v id2

theorem step3_getStock_untouched (oracle : StoreOracle) (cart : List CartItem) (id : Int)
    (h : ∀ item ∈ cart, item.stock ≠ -1 → oracle.stockError item.id = none → item.id ≠ id) :
    ∀ st : StoreState, getStock (step3 oracle st cart).1 id = getStock st id := by
  induction cart with
  | nil => intro st; rfl
  | cons x rest ih =>
    intro st
    have hrest : ∀ item ∈ rest, item.stock ≠ -1 → oracle.stockError item.id = none →
        item.id ≠ id := fun item hm => h item (List.mem_cons_of_mem _ hm)
    by_cases hx : x.stock ≠ -1
    · cases herr : oracle.stockError x.id with
      | some msg => simp only [step3, if_pos hx, herr]; exact ih hrest st
      | none =>
        have hxid : x.id ≠ id := h x (List.mem_cons_self _ _) hx herr
        simp only [step3, if_pos hx, herr]
        rw [ih hrest, getStock_applyAbsoluteStock]
        have : ¬id = x.id := fun hc => hxid hc.symm
        simp [this]
    · simp only [step3, if_neg hx]
      exact ih hrest st

theorem step3_getStock_applied (oracle : StoreOracle) (cart : List CartItem) (item : CartItem)
    (hmem : item ∈ cart) (hlim : item.stock ≠ -1)
    (herr : oracle.stockError item.id = none)
    (hnd : (cart.map (fun i => i.id)).Nodup) :
    ∀ st : StoreState,
      getStock (step3 oracle st cart).1 item.id =
        (getStock st item.id).map (fun _ => item.stock - item.quantity) := by
  induction cart with
  | nil => cases hmem
  | cons x rest ih =>
    intro st
    have hndr : (rest.map (fun i => i.id)).Nodup := (List.nodup_cons.mp hnd).2
    have hxnr : x.id ∉ rest.map (fun i => i.id) := (List.nodup_cons.mp hnd).1
    rcases List.mem_cons.mp hmem with h | h
    · subst h
      simp only [step3, if_pos hlim, herr]
      have huntouched : ∀ j ∈ rest, j.stock ≠ -1 → oracle.stockError j.id = none →
          j.id ≠ item.id := by
        intro j hj _ _ hc
        exact hxnr (hc ▸ List.mem_map_of_mem (fun i => i.id) hj)
      rw [step3_getStock_untouched oracle rest item.id huntouched,
        getStock_applyAbsoluteStock]
      simp
    · have hne : x.id ≠ item.id := by
        intro hc
        exact hxnr (hc ▸ List.mem_map_of_mem (fun i => i.id) h)
      by_cases hx : x.stock ≠ -1
      · cases hxe : oracle.stockError x.id with
        | some msg =>
          simp only [step3, if_pos hx, hxe]
          exact ih h hndr st
        | none =>
          simp only [step3, if_pos hx, hxe]
          rw [ih h hndr, getStock_applyAbsoluteStock]
          have : ¬item.id = x.id := fun hc => hne hc.symm
          cases getStock st item.id with
          | none => simp
          | some s => simp [this]
      · simp only [step3, if_neg hx]
        exact ih h hndr st

/-- C3: `commit` checks its preconditions before any write: an empty cart
fails with `EmptyCart`, a blank (whitespace-only) customer name fails with
`MissingCustomer`, and a Cash payment with a tendered amount below the
subtotal fails with `InsufficientPayment`; in each case zero store calls are
issued and neither the cart nor the store changes. -/
theorem C3_preconditions_before_any_write
    (inp : CheckoutInput) (oracle : StoreOracle) (store : StoreState) :
    (inp.cart = [] →
      handleCheckout inp oracle store =
        ⟨Except.error CheckoutError.emptyCart, [], inp.cart, store, []⟩) ∧
    (inp.cart ≠ [] → isBlank inp.customerName = true →
      handleCheckout inp oracle store =
        ⟨Except.error CheckoutError.missingCustomer, [], inp.cart, store, []⟩) ∧
    (inp.cart ≠ [] → isBlank inp.customerName = false → inp.paymentMethod = "Cash" →
      ∀ a : Int, inp.amountPaid = some a → a < cartTotal inp.cart →
      handleCheckout inp oracle store =
        ⟨Except.error CheckoutError.insufficientPayment, [], inp.cart, store, []⟩) := by
  refine ⟨fun h1 => ?_, fun h1 h2 => ?_, fun h1 h2 h3 a ha hlt => ?_⟩
  · simp [handleCheckout, h1]
  · simp [handleCheckout, h1, h2]
  · simp [handleCheckout, paidOf, h1, h2, h3, ha, hlt]

/-- Witness for C3 at concrete inputs: an empty cart, a whitespace-only
customer name, and a Cash sale of 2000 with only 1500 tendered. -/
theorem C3_preconditions_witness :
    (handleCheckout ⟨[], "Budi", "Dine In", some 5000, "Cash"⟩ (okOracle 1) exStore =
      ⟨Except.error CheckoutError.emptyCart, [], [], exStore, []⟩) ∧
    (handleCheckout ⟨[exLine], "  ", "Dine In", some 5000, "Cash"⟩ (okOracle 1) exStore =
      ⟨Except.error CheckoutError.missingCustomer, [], [exLine], exStore, []⟩) ∧
    (handleCheckout ⟨[exLine], "Budi", "Dine In", some 1500, "Cash"⟩ (okOracle 1) exStore =
      ⟨Except.error CheckoutError.insufficientPayment, [], [exLine], exStore, []⟩) := by
  refine ⟨?_, ?_, ?_⟩
  · exact (C3_preconditions_before_any_write ⟨[], "Budi", "Dine In", some 5000, "Cash"⟩
      (okOracle 1) exStore).1 rfl
  · exact (C3_preconditions_before_any_write ⟨[exLine], "  ", "Dine In", some 5000, "Cash"⟩
      (okOracle 1) exStore).2.1 (by decide) rfl
  · exact (C3_preconditions_before_any_write ⟨[exLine], "Budi", "Dine In", some 1500, "Cash"⟩
      (okOracle 1) exStore).2.2 (by decide) (by decide) rfl 1500 rfl (by decide)

/-- C8: `setQuantity(productId, delta)` acts position by position on the cart.
A line with a different id is unchanged.  On the targeted line the new
quantity is `max(1, current + delta)`, except that a positive delta on a
stock-limited line is silently rejected (the quantity stays at its current
value) when the new quantity would exceed the snapshot stock ceiling;
consequently a line with quantity ≥ 1 never drops below 1, and a stock-limited
line within its ceiling never exceeds it. -/
theorem C8_setQuantity_pointwise (cart : List CartItem) (productId delta : Int) :
    List.Forall₂ (fun old new =>
      (old.id ≠ productId → new = old) ∧
      (old.id = productId →
        (delta > 0 ∧ old.stock ≠ -1 ∧ max 1 (old.quantity + delta) > old.stock →
          new = old) ∧
        (¬(delta > 0 ∧ old.stock ≠ -1 ∧ max 1 (old.quantity + delta) > old.stock) →
          new.quantity = max 1 (old.quantity + delta)) ∧
        (1 ≤ old.quantity → 1 ≤ new.quantity) ∧
        (1 ≤ old.quantity → old.stock ≠ -1 → old.quantity ≤ old.stock →
          new.quantity ≤ old.stock)))
      cart (updateQuantity productId delta cart) := by
  induction cart with
  | nil => exact List.Forall₂.nil
  | cons item rest ih =>
    refine List.Forall₂.cons ?_ ih
    dsimp only
    by_cases hid : item.id = productId
    · by_cases hrej : delta > 0 ∧ item.stock ≠ -1 ∧ max 1 (item.quantity + delta) > item.stock
      · have hnew : (if item.id = productId then
            (if delta > 0 ∧ item.stock ≠ -1 ∧ max 1 (item.quantity + delta) > item.stock
              then item else { item with quantity := max 1 (item.quantity + delta) })
            else item) = item := by rw [if_pos hid, if_pos hrej]
        refine ⟨fun h => absurd hid h, fun _ => ?_⟩
        rw [hnew]
        exact ⟨fun _ => rfl, fun hc => absurd hrej hc, fun h1 => h1, fun _ _ hle => hle⟩
      · have hnew : (if item.id = productId then
            (if delta > 0 ∧ item.stock ≠ -1 ∧ max 1 (item.quantity + delta) > item.stock
              then item else { item with quantity := max 1 (item.quantity + delta) })
            else item) = { item with quantity := max 1 (item.quantity + delta) } := by
          rw [if_pos hid, if_neg hrej]
        refine ⟨fun h => absurd hid h, fun _ => ?_⟩
        rw [hnew]
        refine ⟨fun hc => absurd hc hrej, fun _ => rfl, fun _ => le_max_left 1 _,
          fun h1 hlim hle => ?_⟩
        push_neg at hrej
        rcases le_or_lt delta 0 with hd | hd
        · have h1s : (1 : Int) ≤ item.stock := le_trans h1 hle
          have h2s : item.quantity + delta ≤ item.stock := by omega
          exact max_le h1s h2s
        · exact hrej hd hlim
    · have hnew : (if item.id = productId then
          (if delta > 0 ∧ item.stock ≠ -1 ∧ max 1 (item.quantity + delta) > item.stock
            then item else { item with quantity := max 1 (item.quantity + delta) })
          else item) = item := by rw [if_neg hid]
      refine ⟨fun _ => ?_, fun h => absurd h hid⟩
      rw [hnew]

/-- Witness for C8 on a concrete two-line cart: lowering the Ceker line
(quantity 3, stock 10) by 5 clamps it at 1, and the unrelated line is
unchanged. -/
theorem C8_setQuantity_witness :
    List.Forall₂ (fun old new =>
      (old.id ≠ 1 → new = old) ∧
      (old.id = 1 →
        ((-5 : Int) > 0 ∧ old.stock ≠ -1 ∧ max 1 (old.quantity + -5) > old.stock →
          new = old) ∧
        (¬((-5 : Int) > 0 ∧ old.stock ≠ -1 ∧ max 1 (old.quantity + -5) > old.stock) →
          new.quantity = max 1 (old.quantity + -5)) ∧
        (1 ≤ old.quantity → 1 ≤ new.quantity) ∧
        (1 ≤ old.quantity → old.stock ≠ -1 → old.quantity ≤ old.stock →
          new.quantity ≤ old.stock)))
      [⟨1, "Ceker", "Topping", 2000, 10, none, 3⟩, ⟨2, "Es Teh", "Minuman", 5000, -1, none, 2⟩]
      (updateQuantity 1 (-5)
        [⟨1, "Ceker", "Topping", 2000, 10, none, 3⟩, ⟨2, "Es Teh", "Minuman", 5000, -1, none, 2⟩]) :=
  C8_setQuantity_pointwise
    [⟨1, "Ceker", "Topping", 2000, 10, none, 3⟩, ⟨2, "Es Teh", "Minuman", 5000, -1, none, 2⟩] 1 (-5)

/-- C5: in every commit that reaches the write sequence, the inserted
Transaction carries `change = max(0, tendered - subtotal)`; and committing the
cart `[{price:10000, qty:2}, {price:5000, qty:1}]` with Cash and tendered
30000 against an empty store produces a Transaction with `total_amount` 25000
and `change_amount` 5000 together with exactly two TransactionItem rows whose
summed `price * quantity` is 25000. -/
theorem C5_round_trip_change :
    (∀ (inp : CheckoutInput) (oracle : StoreOracle) (store : StoreState) (a : Int),
      inp.cart ≠ [] → isBlank inp.customerName = false →
      ¬(inp.paymentMethod = "Cash" ∧ paidOf inp < cartTotal inp.cart) →
      inp.amountPaid = some a →
      (handleCheckout inp oracle store).calls.head? =
        some (StoreCall.insertTransaction
          ⟨cartTotal inp.cart, inp.customerName, inp.orderType, a,
            max 0 (a - cartTotal inp.cart), inp.paymentMethod⟩)) ∧
    handleCheckout exInput5 (okOracle 1) ⟨[], [], []⟩ =
      ⟨Except.ok 1,
        [StoreCall.insertTransaction ⟨25000, "Budi", "Dine In", 30000, 5000, "Cash"⟩,
          StoreCall.insertItems
            [⟨1, 1, "Seblak Spesial", 2, 10000⟩, ⟨1, 2, "Es Teh Manis", 1, 5000⟩]],
        [],
        ⟨[], [⟨⟨25000, "Budi", "Dine In", 30000, 5000, "Cash"⟩, 1⟩],
          [⟨1, 1, "Seblak Spesial", 2, 10000⟩, ⟨1, 2, "Es Teh Manis", 1, 5000⟩]⟩,
        []⟩ ∧
    (handleCheckout exInput5 (okOracle 1)
        ⟨[], [], []⟩).storeAfter.transaction_items.length = 2 ∧
    ((handleCheckout exInput5 (okOracle 1) ⟨[], [], []⟩).storeAfter.transaction_items.map
        (fun r => r.price * r.quantity)).sum = 25000 := by
  refine ⟨fun inp oracle store a h1 h2 h3 ha => ?_, by decide, by decide, by decide⟩
  rw [handleCheckout_run inp oracle store h1 h2 h3]
  have hpaid : paidOf inp = a := by simp [paidOf, ha]
  have htx : txInsertOf inp =
      ⟨cartTotal inp.cart, inp.customerName, inp.orderType, a,
        max 0 (a - cartTotal inp.cart), inp.paymentMethod⟩ := by
    simp [txInsertOf, hpaid]
  cases ht : oracle.txError with
  | some msg => rw [commitWrites_txFail inp oracle store msg ht, htx]; rfl
  | none =>
    cases hi : oracle.itemsError with
    | some msg => rw [commitWrites_itemsFail inp oracle store msg ht hi, htx]; rfl
    | none => rw [commitWrites_ok inp oracle store ht hi, htx]; rfl

/-- Witness for C5's general change formula at the concrete round-trip input:
the issued transaction insert carries total 25000, tendered 30000 and change
5000. -/
theorem C5_round_trip_witness :
    (handleCheckout exInput5 (okOracle 1) ⟨[], [], []⟩).calls.head? =
      some (StoreCall.insertTransaction ⟨25000, "Budi", "Dine In", 30000, 5000, "Cash"⟩) := by
  have h := C5_round_trip_change.1 exInput5 (okOracle 1) ⟨[], [], []⟩ 30000
    (by decide) (by decide) (by decide) rfl

  simpa using h

/-- C10: when the amount-tendered field is left blank, `paid` defaults to the
cart subtotal, so the committed Transaction records `amount_paid` equal to the
subtotal and `change_amount` 0, for every payment method (in particular the
Cash sufficiency check passes vacuously, which is what lets non-Cash checkouts
proceed without an entered tendered amount). -/
theorem C10_blank_tendered_defaults
    (inp : CheckoutInput) (oracle : StoreOracle) (store : StoreState)
    (h1 : inp.cart ≠ []) (h2 : isBlank inp.customerName = false)
    (hblank : inp.amountPaid = none) (ht : oracle.txError = none) :
    (handleCheckout inp oracle store).storeAfter.transactions =
      store.transactions ++
        [⟨⟨cartTotal inp.cart, inp.customerName, inp.orderType, cartTotal inp.cart, 0,
          inp.paymentMethod⟩, oracle.nextTxId⟩] := by
  have hpaid : paidOf inp = cartTotal inp.cart := by simp [paidOf, hblank]
  have h3 : ¬(inp.paymentMethod = "Cash" ∧ paidOf inp < cartTotal inp.cart) := by
    rintro ⟨-, hlt⟩
    rw [hpaid] at hlt
    exact lt_irrefl _ hlt
  have htx : txInsertOf inp =
      ⟨cartTotal inp.cart, inp.customerName, inp.orderType, cartTotal inp.cart, 0,
        inp.paymentMethod⟩ := by
    simp [txInsertOf, hpaid]
  rw [handleCheckout_run inp oracle store h1 h2 h3]
  cases hi : oracle.itemsError with
  | some msg => rw [commitWrites_itemsFail inp oracle store msg ht hi, htx]
  | none =>
    rw [commitWrites_ok inp oracle store ht hi]
    simp only [step3_transactions]
    rw [htx]

/-- Witness for C10: a QRIS checkout of one Ceker line (subtotal 2000) with a
blank tendered field records `amount_paid` 2000 and `change_amount` 0. -/
theorem C10_blank_tendered_witness :
    (handleCheckout ⟨[exLine], "Budi", "Dine In", none, "QRIS"⟩ (okOracle 3)
        exStore).storeAfter.transactions =
      [⟨⟨2000, "Budi", "Dine In", 2000, 0, "QRIS"⟩, 3⟩] := by
  have h := C10_blank_tendered_defaults ⟨[exLine], "Budi", "Dine In", none, "QRIS"⟩
    (okOracle 3) exStore (by decide) (by decide) rfl rfl
  simpa [exStore] using h

/-- C2 counterexample: `commit` does not return a distinct `PartialCommit`
error.  A step-2 failure (after step-1 success) and a step-1 failure with the
same store message produce byte-identical surfaced results — both land in the
single generic catch — so no error distinct from the step-1
(`PersistenceError`) case exists. -/
theorem C2_no_distinct_partial_commit_error :
    (handleCheckout exInput (failItemsOracle "boom" 1) exStore).result =
      Except.error (CheckoutError.checkoutFailed "boom") ∧
    (handleCheckout exInput (failTxOracle "boom") exStore).result =
      Except.error (CheckoutError.checkoutFailed "boom") ∧
    (handleCheckout exInput (failItemsOracle "boom" 1) exStore).result =
      (handleCheckout exInput (failTxOracle "boom") exStore).result := by
  decide

/-- C2 amended: when step 1 succeeds and step 2 fails, `commit` aborts through
the same generic checkout-failure channel as a step-1 failure (carrying the
store's message), issues no stock updates, leaves the cart uncleared, and the
store gains exactly one orphaned Transaction row and zero TransactionItem
rows; when step 1 itself fails, `commit` reports that generic failure, the
store is unchanged, and no further calls are issued. -/
theorem C2_partial_commit_amended
    (inp : CheckoutInput) (oracle : StoreOracle) (store : StoreState)
    (h1 : inp.cart ≠ []) (h2 : isBlank inp.customerName = false)
    (h3 : ¬(inp.paymentMethod = "Cash" ∧ paidOf inp < cartTotal inp.cart)) :
    (∀ msg : String, oracle.txError = none → oracle.itemsError = some msg →
      (handleCheckout inp oracle store).result =
          Except.error (CheckoutError.checkoutFailed msg) ∧
      (handleCheckout inp oracle store).cartAfter = inp.cart ∧
      (handleCheckout inp oracle store).storeAfter.transactions =
        store.transactions ++ [⟨txInsertOf inp, oracle.nextTxId⟩] ∧
      (handleCheckout inp oracle store).storeAfter.transaction_items =
        store.transaction_items ∧
      (handleCheckout inp oracle store).storeAfter.products = store.products ∧
      (∀ pid v : Int,
        StoreCall.updateProductStock pid v ∉ (handleCheckout inp oracle store).calls)) ∧
    (∀ msg : String, oracle.txError = some msg →
      (handleCheckout inp oracle store).result =
          Except.error (CheckoutError.checkoutFailed msg) ∧
      (handleCheckout inp oracle store).cartAfter = inp.cart ∧
      (handleCheckout inp oracle store).storeAfter = store ∧
      (handleCheckout inp oracle store).calls =
        [StoreCall.insertTransaction (txInsertOf inp)]) := by
  rw [handleCheckout_run inp oracle store h1 h2 h3]
  constructor
  · intro msg ht hi
    rw [commitWrites_itemsFail inp oracle store msg ht hi]
    refine ⟨rfl, rfl, rfl, rfl, rfl, ?_⟩
    intro pid v hmem
    simp at hmem
  · intro msg ht
    rw [commitWrites_txFail inp oracle store msg ht]
    exact ⟨rfl, rfl, rfl, rfl⟩

/-- Witness for the amended C2: committing one Ceker line while the item
insert fails with "io error" leaves one orphaned Transaction row, zero item
rows, an uncleared cart, and the generic failure. -/
theorem C2_partial_commit_witness :
    (handleCheckout exInput (failItemsOracle "io error" 5) exStore).result =
      Except.error (CheckoutError.checkoutFailed "io error") ∧
    (handleCheckout exInput (failItemsOracle "io error" 5) exStore).cartAfter = [exLine] ∧
    (handleCheckout exInput (failItemsOracle "io error" 5) exStore).storeAfter.transactions =
      [⟨⟨2000, "Budi", "Dine In", 5000, 3000, "Cash"⟩, 5⟩] ∧
    (handleCheckout exInput (failItemsOracle "io error" 5) exStore).storeAfter.transaction_items
      = [] := by
  have h := (C2_partial_commit_amended exInput (failItemsOracle "io error" 5) exStore
    (by decide) (by decide) (by decide)).1 "io error" rfl rfl
  refine ⟨h.1, h.2.1, ?_, h.2.2.2.1⟩
  have h3 := h.2.2.1
  rw [h3]
  decide

/-- C6: once steps 1 and 2 have succeeded the checkout always completes: the
result is success and the cart is cleared whatever the per-item stock-update
outcomes; the inserted transaction and item rows are not rolled back; every
stock-limited line's decrement is still attempted (its update call is issued);
each failing update is logged as a warning carrying the store's message; and
every succeeding item's decrement is applied to the store even when other
items' updates fail. -/
theorem C6_stock_failure_nonfatal
    (inp : CheckoutInput) (oracle : StoreOracle) (store : StoreState)
    (h1 : inp.cart ≠ []) (h2 : isBlank inp.customerName = false)
    (h3 : ¬(inp.paymentMethod = "Cash" ∧ paidOf inp < cartTotal inp.cart))
    (ht : oracle.txError = none) (hi : oracle.itemsError = none) :
    (handleCheckout inp oracle store).result = Except.ok oracle.nextTxId ∧
    (handleCheckout inp oracle store).cartAfter = [] ∧
    (handleCheckout inp oracle store).storeAfter.transactions =
      store.transactions ++ [⟨txInsertOf inp, oracle.nextTxId⟩] ∧
    (handleCheckout inp oracle store).storeAfter.transaction_items =
      store.transaction_items ++ itemRowsOf inp oracle.nextTxId ∧
    (∀ item ∈ inp.cart, item.stock ≠ -1 →
      StoreCall.updateProductStock item.id (item.stock - item.quantity) ∈
        (handleCheckout inp oracle store).calls) ∧
    (∀ item ∈ inp.cart, ∀ msg : String, item.stock ≠ -1 →
      oracle.stockError item.id = some msg →
      (item.id, msg) ∈ (handleCheckout inp oracle store).warnings) ∧
    ((inp.cart.map (fun i => i.id)).Nodup →
      ∀ item ∈ inp.cart, item.stock ≠ -1 → oracle.stockError item.id = none →
        getStock (handleCheckout inp oracle store).storeAfter item.id =
          (getStock store item.id).map (fun _ => item.stock - item.quantity)) := by
  rw [handleCheckout_run inp oracle store h1 h2 h3,
    commitWrites_ok inp oracle store ht hi]
  refine ⟨rfl, rfl, ?_, ?_, ?_, ?_, ?_⟩
  · rw [step3_transactions]
  · rw [step3_transaction_items]
  · intro item hmem hlim
    exact List.mem_cons_of_mem _ (List.mem_cons_of_mem _
      (step3_calls_mem oracle inp.cart _ item hmem hlim))
  · intro item hmem msg hlim herr
    exact step3_warnings_mem oracle inp.cart _ item hmem msg hlim herr
  · intro hnd item hmem hlim herr
    exact step3_getStock_applied oracle inp.cart item hmem hlim herr hnd _

/-- Witness for C6: committing two stock-limited lines while product 1's
update fails with "net down": the checkout still succeeds, the cart clears,
the failure is logged, and product 2's stock is still decremented from 50 to
47. -/
theorem C6_stock_failure_witness :
    (handleCheckout ⟨exCartW, "Budi", "Dine In", some 10000, "Cash"⟩ exOracleW
        exStoreW).result = Except.ok 9 ∧
    (handleCheckout ⟨exCartW, "Budi", "Dine In", some 10000, "Cash"⟩ exOracleW
        exStoreW).cartAfter = [] ∧
    (1, "net down") ∈
      (handleCheckout ⟨exCartW, "Budi", "Dine In", some 10000, "Cash"⟩ exOracleW
        exStoreW).warnings ∧
    StoreCall.updateProductStock 2 47 ∈
      (handleCheckout ⟨exCartW, "Budi", "Dine In", some 10000, "Cash"⟩ exOracleW
        exStoreW).calls ∧
    getStock (handleCheckout ⟨exCartW, "Budi", "Dine In", some 10000, "Cash"⟩ exOracleW
        exStoreW).storeAfter 2 = some 47 := by
  have h := C6_stock_failure_nonfatal ⟨exCartW, "Budi", "Dine In", some 10000, "Cash"⟩
    exOracleW exStoreW (by decide) (by decide) (by decide) rfl rfl
  refine ⟨h.1, h.2.1, ?_, ?_, ?_⟩
  · exact h.2.2.2.2.2.1 ⟨1, "Ceker", "Topping", 2000, 50, none, 2⟩ (by decide) "net down"
      (by decide) rfl
  · have := h.2.2.2.2.1 ⟨2, "Bakso", "Topping", 2000, 50, none, 3⟩ (by decide) (by decide)
    simpa using this
  · have := h.2.2.2.2.2.2 (by decide) ⟨2, "Bakso", "Topping", 2000, 50, none, 3⟩
      (by decide) (by decide) rfl
    simpa [exStoreW, getStock] using this

/-- C1 counterexample: the checkout's stock update is not a relative
server-side decrement.  Two quantity-1 checkouts whose carts both carry the
add-time snapshot stock 10 (the interleaving of two concurrent sessions that
both read stock 10 before either wrote) leave the product's stock at 9, not 8;
and a single such checkout against a store whose current stock is 7 also
writes 9 (snapshot 10 − quantity 1) rather than 6 (current 7 − quantity 1),
because the issued update is an absolute value computed from the client's
snapshot. -/
theorem C1_relative_decrement_counterexample :
    getStock (handleCheckout exInput (okOracle 2)
        (handleCheckout exInput (okOracle 1) exStore).storeAfter).storeAfter 1 = some 9 ∧
    (9 : Int) ≠ 8 ∧
    getStock (handleCheckout exInput (okOracle 1)
        ⟨[⟨1, "Ceker", "Topping", 2000, 7, none⟩], [], []⟩).storeAfter 1 = some 9 ∧
    (9 : Int) ≠ 7 - 1 := by
  decide

/-- C1 amended: for every committed stock-limited cart line, the stock update
issued to the store is an absolute write of the client-computed value
(add-time snapshot stock − quantity), and the store applies it as an
assignment independent of its current stock, so concurrent checkouts can lose
updates (two quantity-1 checkouts from snapshot 10 leave 9, not 8).  Only the
legacy sqlite endpoint performs the relative server-side decrement
`stock = stock - quantity` from the store's current value, under which two
quantity-1 updates take stock 10 to 8. -/
theorem C1_absolute_stock_write_amended
    (inp : CheckoutInput) (oracle : StoreOracle) (store : StoreState)
    (h1 : inp.cart ≠ []) (h2 : isBlank inp.customerName = false)
    (h3 : ¬(inp.paymentMethod = "Cash" ∧ paidOf inp < cartTotal inp.cart))
    (ht : oracle.txError = none) (hi : oracle.itemsError = none) :
    (∀ item ∈ inp.cart, item.stock ≠ -1 →
      StoreCall.updateProductStock item.id (item.stock - item.quantity) ∈
        (handleCheckout inp oracle store).calls) ∧
    ((inp.cart.map (fun i => i.id)).Nodup →
      ∀ item ∈ inp.cart, item.stock ≠ -1 → oracle.stockError item.id = none →
        getStock (handleCheckout inp oracle store).storeAfter item.id =
          (getStock store item.id).map (fun _ => item.stock - item.quantity)) ∧
    (∀ (db : List Product) (q pid : Int),
      ((legacyUpdateStock db q pid).find? (fun p => p.id = pid)).map (fun p => p.stock) =
        (db.find? (fun p => p.id = pid)).map
          (fun p => if p.stock > -1 then p.stock - q else p.stock)) ∧
    legacyUpdateStock (legacyUpdateStock [⟨1, "Ceker", "Topping", 2000, 10, none⟩] 1 1) 1 1 =
      [⟨1, "Ceker", "Topping", 2000, 8, none⟩] := by
  rw [handleCheckout_run inp oracle store h1 h2 h3,
    commitWrites_ok inp oracle store ht hi]
  refine ⟨?_, ?_, legacyUpdateStock_find?, by decide⟩
  · intro item hmem hlim
    exact List.mem_cons_of_mem _ (List.mem_cons_of_mem _
      (step3_calls_mem oracle inp.cart _ item hmem hlim))
  · intro hnd item hmem hlim herr
    exact step3_getStock_applied oracle inp.cart item hmem hlim herr hnd _

/-- Witness for the amended C1: against a store whose current stock is 7, the
commit of a line snapshotted at stock 10 issues the absolute write 9 and
leaves stock 9, while the legacy relative decrement on the same store would
leave 6. -/
theorem C1_absolute_stock_write_witness :
    StoreCall.updateProductStock 1 9 ∈
      (handleCheckout exInput (okOracle 1)
        ⟨[⟨1, "Ceker", "Topping", 2000, 7, none⟩], [], []⟩).calls ∧
    getStock (handleCheckout exInput (okOracle 1)
        ⟨[⟨1, "Ceker", "Topping", 2000, 7, none⟩], [], []⟩).storeAfter 1 = some 9 ∧
    ((legacyUpdateStock [⟨1, "Ceker", "Topping", 2000, 7, none⟩] 1 1).find?
        (fun p => p.id = 1)).map (fun p => p.stock) = some 6 := by
  have h := C1_absolute_stock_write_amended exInput (okOracle 1)
    ⟨[⟨1, "Ceker", "Topping", 2000, 7, none⟩], [], []⟩
    (by decide) (by decide) (by decide) rfl rfl
  refine ⟨?_, ?_, ?_⟩
  · have := h.1 exLine (by decide) (by decide)
    simpa using this
  · have := h.2.1 (by decide) exLine (by decide) (by decide) rfl
    simpa [getStock, exLine] using this
  · rw [h.2.2.1 [⟨1, "Ceker", "Topping", 2000, 7, none⟩] 1 1]
    decide

theorem updateQuantity_inv (pid d : Int) (cart : List CartItem) (h : cartInv cart) :
    cartInv (updateQuantity pid d cart) := by
  intro x hx
  rcases List.mem_map.mp hx with ⟨item, hmem, hfx⟩
  rcases h item hmem with ⟨hq1, hqs⟩
  subst hfx
  by_cases hid : item.id = pid
  · by_cases hrej : d > 0 ∧ item.stock ≠ -1 ∧ max 1 (item.quantity + d) > item.stock
    · rw [if_pos hid, if_pos hrej]
      exact ⟨hq1, hqs⟩
    · rw [if_pos hid, if_neg hrej]
      refine ⟨le_max_left 1 _, fun hs => ?_⟩
      have hle := hqs hs
      push_neg at hrej
      rcases le_or_lt d 0 with hd | hd
      · have h1s : (1 : Int) ≤ item.stock := le_trans hq1 hle
        have h2s : item.quantity + d ≤ item.stock := by omega
        exact max_le h1s h2s
      · exact hrej hd hs
  · rw [if_neg hid]
    exact ⟨hq1, hqs⟩

theorem removeFromCart_inv (pid : Int) (cart : List CartItem) (h : cartInv cart) :
    cartInv (removeFromCart pid cart) := by
  intro x hx
  exact h x (List.mem_of_mem_filter hx)

theorem addToCart_inv_fresh (p : Product) (cart : List CartItem) (h : cartInv cart)
    (hfresh : ∀ item ∈ cart, item.id ≠ p.id) : cartInv (addToCart p cart) := by
  by_cases hguard : p.stock ≠ -1 ∧ p.stock ≤ 0
  · rw [addToCart, if_pos hguard]
    exact h
  · have hany : ¬(cart.any (fun item => item.id = p.id) = true) := by
      simp only [List.any_eq_true, not_exists]
      intro x
      rintro ⟨hx, hc⟩
      exact hfresh x hx (by simpa using hc)
    rw [addToCart, if_neg hguard, if_neg hany]
    intro x hx
    rcases List.mem_append.mp hx with hx | hx
    · exact h x hx
    · rcases List.mem_singleton.mp hx with rfl
      refine ⟨le_refl 1, fun hs => ?_⟩
      simp only [mkLine] at hs ⊢
      have : ¬p.stock ≤ 0 := fun hle => hguard ⟨hs, hle⟩
      omega

theorem applyOp_inv (cart : List CartItem) (op : CartOp) (h : cartInv cart)
    (hop : freshOp cart op = true) : cartInv (applyOp cart op) := by
  cases op with
  | add p =>
    refine addToCart_inv_fresh p cart h ?_
    intro item hmem
    have := (List.all_eq_true.mp hop) item hmem
    simpa using this
  | setQty pid d => exact updateQuantity_inv pid d cart h
  | remove pid => exact removeFromCart_inv pid cart h

/-- C4 counterexample: the cart-ceiling invariant fails.  Adding a
stock-limited product with stock 1 twice (the second `add` passes the
`stock <= 0` guard and increments the existing line without any ceiling
check) yields a line with quantity 2 above its snapshot ceiling 1. -/
theorem C4_ceiling_counterexample :
    List.foldl applyOp [] [CartOp.add exProductS1, CartOp.add exProductS1] =
      [⟨1, "Keripik Kaca", "Snack", 5000, 1, none, 2⟩] ∧
    ¬cartInv (List.foldl applyOp [] [CartOp.add exProductS1, CartOp.add exProductS1]) := by
  refine ⟨by decide, ?_⟩
  intro hinv
  have := hinv ⟨1, "Keripik Kaca", "Snack", 5000, 1, none, 2⟩ (by decide)
  rcases this with ⟨-, hle⟩
  exact absurd (hle (by decide)) (by decide)

/-- C4 amended: `add` on a product not in the cart (and not out of stock)
inserts a line with quantity 1 and the frozen price/stock snapshot, and `add`
on a product already in the cart increments that line's quantity by 1 without
any ceiling check; consequently the invariant "each stock-limited line's
quantity stays within its add-time ceiling (and at least 1)" is guaranteed
for exactly those operation runs in which every `add` targets a product not
already in the cart (`setQuantity` and `remove` always preserve it). -/
theorem C4_cart_invariant_amended :
    (∀ (cart : List CartItem) (ops : List CartOp),
      cartInv cart → freshRun cart ops = true → cartInv (List.foldl applyOp cart ops)) ∧
    (∀ (p : Product) (cart : List CartItem),
      ¬(p.stock ≠ -1 ∧ p.stock ≤ 0) → cart.any (fun item => item.id = p.id) = true →
      addToCart p cart = cart.map (fun item =>
        if item.id = p.id then { item with quantity := item.quantity + 1 } else item)) ∧
    (∀ (p : Product) (cart : List CartItem),
      ¬(p.stock ≠ -1 ∧ p.stock ≤ 0) → (∀ item ∈ cart, item.id ≠ p.id) →
      addToCart p cart = cart ++ [mkLine p 1]) := by
  refine ⟨?_, ?_, ?_⟩
  · intro cart ops hinv hfresh
    induction ops generalizing cart with
    | nil => exact hinv
    | cons op rest ih =>
      rw [List.foldl_cons]
      have hsplit : freshOp cart op = true ∧ freshRun (applyOp cart op) rest = true := by
        simpa [freshRun] using hfresh
      exact ih (applyOp cart op) (applyOp_inv cart op hinv hsplit.1) hsplit.2
  · intro p cart hguard hany
    rw [addToCart, if_neg hguard, if_pos hany]
  · intro p cart hguard hfresh
    have hany : ¬(cart.any (fun item => item.id = p.id) = true) := by
      simp only [List.any_eq_true, not_exists]
      intro x
      rintro ⟨hx, hc⟩
      exact hfresh x hx (by simpa using hc)
    rw [addToCart, if_neg hguard, if_neg hany]

/-- Witness for the amended C4: a fresh run (add Ceker, raise it by 5, add
Bakso, drop Ceker by 9) keeps every stock-limited line within its ceiling
and at least at quantity 1. -/
theorem C4_cart_invariant_witness :
    cartInv (List.foldl applyOp []
      [CartOp.add exProduct, CartOp.setQty 1 5, CartOp.add ⟨2, "Bakso", "Topping", 2000, 50, none⟩,
        CartOp.setQty 1 (-9)]) :=
  C4_cart_invariant_amended.1 []
    [CartOp.add exProduct, CartOp.setQty 1 5, CartOp.add ⟨2, "Bakso", "Topping", 2000, 50, none⟩,
      CartOp.setQty 1 (-9)]
    (by unfold cartInv; decide) (by decide)

theorem keySum_nil {K : Type} [DecidableEq K] (k : K) : keySum ([] : List (K × Int)) k = 0 :=
  rfl

theorem keySum_cons {K : Type} [DecidableEq K] (e : K × Int) (l : List (K × Int)) (k : K) :
    keySum (e :: l) k = (if e.1 = k then e.2 else 0) + keySum l k := by
  by_cases he : e.1 = k
  · simp [keySum, List.filter_cons, he]
  · simp [keySum, List.filter_cons, he]

theorem keySum_append {K : Type} [DecidableEq K] (l1 l2 : List (K × Int)) (k : K) :
    keySum (l1 ++ l2) k = keySum l1 k + keySum l2 k := by
  induction l1 with
  | nil => simp [keySum_nil, keySum]
  | cons e rest ih =>
    rw [List.cons_append, keySum_cons, keySum_cons, ih]
    ring

theorem map_add_id {K : Type} [DecidableEq K] (l : List (K × Int)) (k : K) (v : Int)
    (h : ∀ e ∈ l, e.1 ≠ k) :
    l.map (fun e => if e.1 = k then (e.1, e.2 + v) else e) = l := by
  induction l with
  | nil => rfl
  | cons e rest ih =>
    rw [List.map_cons, if_neg (h e (List.mem_cons_self _ _)),
      ih (fun x hx => h x (List.mem_cons_of_mem _ hx))]

theorem keys_map_add {K : Type} [DecidableEq K] (l : List (K × Int)) (k : K) (v : Int) :
    (l.map (fun e => if e.1 = k then (e.1, e.2 + v) else e)).map Prod.fst = l.map Prod.fst := by
  induction l with
  | nil => rfl
  | cons e rest ih =>
    by_cases he : e.1 = k
    · simp only [List.map_cons, if_pos he, ih]
    · simp only [List.map_cons, if_neg he, ih]

theorem keySum_map_add {K : Type} [DecidableEq K] (k : K) (v : Int) :
    ∀ (acc : List (K × Int)), (acc.map Prod.fst).Nodup →
      acc.any (fun e => e.1 = k) = true → ∀ k2,
      keySum (acc.map (fun e => if e.1 = k then (e.1, e.2 + v) else e)) k2 =
        keySum acc k2 + (if k2 = k then v else 0) := by
  intro acc
  induction acc with
  | nil => intro _ hany; cases hany
  | cons e rest ih =>
    intro hnd hany k2
    have hndr : (rest.map Prod.fst).Nodup := (List.nodup_cons.mp hnd).2
    by_cases he : e.1 = k
    · have hkout : ∀ x ∈ rest, x.1 ≠ k := by
        intro x hx hc
        exact (List.nodup_cons.mp hnd).1
          (he ▸ hc ▸ List.mem_map_of_mem Prod.fst hx)
      rw [List.map_cons, if_pos he, map_add_id rest k v hkout,
        keySum_cons, keySum_cons]
      dsimp only
      by_cases hk2 : k2 = k
      · have he2 : e.1 = k2 := by rw [he, hk2]
        rw [if_pos he2, if_pos he2, if_pos hk2]
        ring
      · have he2 : ¬e.1 = k2 := by rw [he]; exact fun hc => hk2 hc.symm
        rw [if_neg he2, if_neg he2, if_neg hk2]
        ring
    · have hanyr : rest.any (fun e => e.1 = k) = true := by
        rcases List.any_eq_true.mp hany with ⟨x, hx, hxk⟩
        rcases List.mem_cons.mp hx with rfl | hx
        · exact absurd (of_decide_eq_true hxk) he
        · exact List.any_eq_true.mpr ⟨x, hx, hxk⟩
      rw [List.map_cons, if_neg he, keySum_cons, keySum_cons, ih hndr hanyr k2]
      ring

theorem nodup_keys_upsertAdd {K : Type} [DecidableEq K] (acc : List (K × Int)) (k : K) (v : Int)
    (hnd : (acc.map Prod.fst).Nodup) : ((upsertAdd acc k v).map Prod.fst).Nodup := by
  by_cases hany : acc.any (fun e => e.1 = k) = true
  · rw [upsertAdd, if_pos hany, keys_map_add]
    exact hnd
  · rw [upsertAdd, if_neg hany]
    have hkout : k ∉ acc.map Prod.fst := by
      intro hc
      rcases List.mem_map.mp hc with ⟨e, he, hek⟩
      exact hany (List.any_eq_true.mpr ⟨e, he, decide_eq_true hek⟩)
    simp [List.nodup_append, hnd, hkout]

theorem keySum_upsertAdd {K : Type} [DecidableEq K] (acc : List (K × Int)) (k : K) (v : Int)
    (hnd : (acc.map Prod.fst).Nodup) (k2 : K) :
    keySum (upsertAdd acc k v) k2 = keySum acc k2 + (if k2 = k then v else 0) := by
  by_cases hany : acc.any (fun e => e.1 = k) = true
  · rw [upsertAdd, if_pos hany]
    exact keySum_map_add k v acc hnd hany k2
  · rw [upsertAdd, if_neg hany, keySum_append, keySum_cons, keySum_nil]
    by_cases hk2 : k2 = k
    · simp [hk2]
    · have : ¬k = k2 := fun hc => hk2 hc.symm
      simp [this, hk2]

theorem keys_upsertAdd_mem {K : Type} [DecidableEq K] (acc : List (K × Int)) (k : K) (v : Int)
    (x : K) : x ∈ (upsertAdd acc k v).map Prod.fst ↔ x ∈ acc.map Prod.fst ∨ x = k := by
  by_cases hany : acc.any (fun e => e.1 = k) = true
  · rw [upsertAdd, if_pos hany, keys_map_add]
    constructor
    · exact fun h => Or.inl h
    · rintro (h | rfl)
      · exact h
      · rcases List.any_eq_true.mp hany with ⟨e, he, hek⟩
        exact (of_decide_eq_true hek) ▸ List.mem_map_of_mem Prod.fst he
  · rw [upsertAdd, if_neg hany]
    simp [List.mem_append]

theorem groupFold_aux {K : Type} [DecidableEq K] :
    ∀ (items acc : List (K × Int)), (acc.map Prod.fst).Nodup →
      ((List.foldl (fun acc e => upsertAdd acc e.1 e.2) acc items).map Prod.fst).Nodup ∧
      (∀ k, keySum (List.foldl (fun acc e => upsertAdd acc e.1 e.2) acc items) k =
        keySum acc k + keySum items k) ∧
      (∀ x, x ∈ (List.foldl (fun acc e => upsertAdd acc e.1 e.2) acc items).map Prod.fst ↔
        x ∈ acc.map Prod.fst ∨ x ∈ items.map Prod.fst) := by
  intro items
  induction items with
  | nil =>
    intro acc hnd
    exact ⟨hnd, fun k => by simp [keySum_nil], fun x => by simp⟩
  | cons e rest ih =>
    intro acc hnd
    have hnd1 := nodup_keys_upsertAdd acc e.1 e.2 hnd
    rcases ih (upsertAdd acc e.1 e.2) hnd1 with ⟨ihnd, ihsum, ihmem⟩
    refine ⟨by simpa using ihnd, fun k => ?_, fun x => ?_⟩
    · rw [List.foldl_cons, ihsum k, keySum_upsertAdd acc e.1 e.2 hnd k, keySum_cons]
      by_cases hk : k = e.1
      · have : e.1 = k := hk.symm
        simp only [if_pos hk, if_pos this]
        ring
      · have : ¬e.1 = k := fun hc => hk hc.symm
        simp only [if_neg hk, if_neg this]
        ring
    · rw [List.foldl_cons, ihmem x, keys_upsertAdd_mem]
      simp only [List.map_cons, List.mem_cons]
      tauto

theorem entry_keySum {K : Type} [DecidableEq K] :
    ∀ (l : List (K × Int)), (l.map Prod.fst).Nodup → ∀ e ∈ l, e.2 = keySum l e.1 := by
  intro l
  induction l with
  | nil => intro _ e he; cases he
  | cons x rest ih =>
    intro hnd e he
    have hx : x.1 ∉ rest.map Prod.fst := (List.nodup_cons.mp hnd).1
    have hndr := (List.nodup_cons.mp hnd).2
    rcases List.mem_cons.mp he with rfl | he
    · rw [keySum_cons, if_pos rfl]
      have hz : keySum rest e.1 = 0 := by
        have : (rest.filter (fun x => x.1 = e.1)) = [] := by
          rw [List.filter_eq_nil_iff]
          intro a ha hc
          exact hx ((of_decide_eq_true hc) ▸ List.mem_map_of_mem Prod.fst ha)
        rw [keySum, this]
        rfl
      rw [hz]
      ring
    · have hne : ¬x.1 = e.1 := by
        intro hc
        exact hx (hc ▸ List.mem_map_of_mem Prod.fst he)
      rw [keySum_cons, if_neg hne, ih hndr e he]
      ring

theorem mem_insStable {T : Type} (keep : T → T → Bool) (a : T) :
    ∀ (l : List T) (x : T), x ∈ insStable keep a l ↔ x = a ∨ x ∈ l := by
  intro l
  induction l with
  | nil => intro x; simp [insStable]
  | cons y ys ih =>
    intro x
    by_cases hk : keep a y = true
    · rw [insStable, if_pos hk]
      simp only [List.mem_cons]
    · rw [insStable, if_neg hk]
      simp only [List.mem_cons, ih x]
      tauto

theorem perm_insStable {T : Type} (keep : T → T → Bool) (a : T) :
    ∀ l : List T, List.Perm (insStable keep a l) (a :: l) := by
  intro l
  induction l with
  | nil => exact List.Perm.refl _
  | cons y ys ih =>
    by_cases hk : keep a y = true
    · rw [insStable, if_pos hk]
    · rw [insStable, if_neg hk]
      exact List.Perm.trans (List.Perm.cons y ih) (List.Perm.swap a y ys)

theorem perm_sortStable {T : Type} (keep : T → T → Bool) :
    ∀ l : List T, List.Perm (sortStable keep l) l := by
  intro l
  induction l with
  | nil => exact List.Perm.refl _
  | cons x xs ih =>
    rw [sortStable]
    exact List.Perm.trans (perm_insStable keep x (sortStable keep xs)) (List.Perm.cons x ih)

theorem pairwise_insStable {T : Type} (R : T → T → Prop) (keep : T → T → Bool)
    (hkeep : ∀ x y, keep x y = true → R x y)
    (hflip : ∀ x y, keep x y = false → R y x)
    (htrans : ∀ a b c, R a b → R b c → R a c) (a : T) :
    ∀ l : List T, List.Pairwise R l → List.Pairwise R (insStable keep a l) := by
  intro l
  induction l with
  | nil => intro _; exact List.pairwise_singleton R a
  | cons y ys ih =>
    intro hl
    rcases List.pairwise_cons.mp hl with ⟨hy, hys⟩
    by_cases hk : keep a y = true
    · rw [insStable, if_pos hk]
      refine List.pairwise_cons.mpr ⟨?_, hl⟩
      intro b hb
      rcases List.mem_cons.mp hb with rfl | hb
      · exact hkeep a b hk
      · exact htrans a y b (hkeep a y hk) (hy b hb)
    · rw [insStable, if_neg hk]
      refine List.pairwise_cons.mpr ⟨?_, ih hys⟩
      intro b hb
      rcases (mem_insStable keep a ys b).mp hb with rfl | hb
      · exact hflip b y (by simpa using hk)
      · exact hy b hb

theorem pairwise_sortStable {T : Type} (R : T → T → Prop) (keep : T → T → Bool)
    (hkeep : ∀ x y, keep x y = true → R x y)
    (hflip : ∀ x y, keep x y = false → R y x)
    (htrans : ∀ a b c, R a b → R b c → R a c) :
    ∀ l : List T, List.Pairwise R (sortStable keep l) := by
  intro l
  induction l with
  | nil => exact List.Pairwise.nil
  | cons x xs ih =>
    rw [sortStable]
    exact pairwise_insStable R keep hkeep hflip htrans x (sortStable keep xs) ih

theorem groupFold_eq {K : Type} [DecidableEq K] (items : List (K × Int)) :
    groupFold items = List.foldl (fun acc e => upsertAdd acc e.1 e.2) [] items := rfl

theorem daySum_cons (t : SalesRow) (rest : List SalesRow) (d : Nat) :
    daySum (t :: rest) d =
      (if dateOf t.timestamp = d then t.total_amount else 0) + daySum rest d := by
  by_cases hd : dateOf t.timestamp = d
  · simp [daySum, List.filter_cons, hd]
  · simp [daySum, List.filter_cons, hd]

theorem keySum_salesMap (txs : List SalesRow) (d : Nat) :
    keySum (txs.map (fun t => (dateOf t.timestamp, t.total_amount))) d = daySum txs d := by
  induction txs with
  | nil => rfl
  | cons t rest ih =>
    rw [List.map_cons, keySum_cons, daySum_cons]
    dsimp only
    rw [ih]

/-- C7 counterexample: aggregating the items `[("A",3),("B",5),("A",2)]`
yields `[("A",5),("B",5)]`, not `[("B",5),("A",5)]`: the summed quantities tie
at 5 and the stable sort keeps the first-encountered name "A" first, so the
claim's expected output contradicts its own tie-break rule. -/
theorem C7_top_products_counterexample :
    topProductsView [("A", 3), ("B", 5), ("A", 2)] = [("A", 5), ("B", 5)] ∧
    topProductsView [("A", 3), ("B", 5), ("A", 2)] ≠ [("B", 5), ("A", 5)] := by
  decide

/-- C7 amended: the top-products view groups the transaction-item rows by
product name in first-encountered order, sums quantities per name, sorts
descending by summed quantity with ties kept in first-encountered order
(stable sort), and retains the top 10; under that tie-break rule aggregating
`[("A",3),("B",5),("A",2)]` yields `[("A",5),("B",5)]` ("A" first).  The view
has at most 10 entries, is sorted by descending summed quantity, lists every
name at most once, and assigns each listed name the sum of its quantities
over all rows. -/
theorem C7_top_products_amended :
    topProductsView [("A", 3), ("B", 5), ("A", 2)] = [("A", 5), ("B", 5)] ∧
    (∀ items : List (String × Int), (topProductsView items).length ≤ 10) ∧
    (∀ items : List (String × Int),
      List.Pairwise (fun a b => b.2 ≤ a.2) (topProductsView items)) ∧
    (∀ items : List (String × Int), ((topProductsView items).map Prod.fst).Nodup) ∧
    (∀ items : List (String × Int), ∀ e ∈ topProductsView items,
      e.2 = keySum items e.1) := by
  have hkeep : ∀ x y : String × Int, decide (y.2 ≤ x.2) = true → y.2 ≤ x.2 :=
    fun x y h => of_decide_eq_true h
  have hflip : ∀ x y : String × Int, decide (y.2 ≤ x.2) = false → x.2 ≤ y.2 :=
    fun x y h => le_of_not_le (of_decide_eq_false h)
  have htrans : ∀ a b c : String × Int, b.2 ≤ a.2 → c.2 ≤ b.2 → c.2 ≤ a.2 :=
    fun a b c hab hbc => le_trans hbc hab
  refine ⟨by decide, ?_, ?_, ?_, ?_⟩
  · intro items
    exact List.length_take_le 10 (sortStable (fun a b => decide (b.2 ≤ a.2)) (groupFold items))
  · intro items
    exact List.Pairwise.sublist (List.take_sublist 10 _)
      (pairwise_sortStable (fun a b => b.2 ≤ a.2) (fun a b => decide (b.2 ≤ a.2))
        hkeep hflip htrans (groupFold items))
  · intro items
    have hgf := groupFold_aux items ([] : List (String × Int)) (by simp)
    have hnd : ((groupFold items).map Prod.fst).Nodup := by
      rw [groupFold_eq]; exact hgf.1
    have hsorted : ((sortStable (fun a b => decide (b.2 ≤ a.2))
        (groupFold items)).map Prod.fst).Nodup :=
      ((perm_sortStable (fun a b => decide (b.2 ≤ a.2)) (groupFold items)).map
        Prod.fst).nodup_iff.mpr hnd
    rw [topProductsView, List.map_take]
    exact List.Nodup.sublist (List.take_sublist 10 _) hsorted
  · intro items e he
    have he1 : e ∈ sortStable (fun a b => decide (b.2 ≤ a.2)) (groupFold items) :=
      List.take_subset 10 _ he
    have he2 : e ∈ groupFold items :=
      ((perm_sortStable (fun a b => decide (b.2 ≤ a.2)) (groupFold items)).mem_iff).mp he1
    have hgf := groupFold_aux items ([] : List (String × Int)) (by simp)
    have hnd : ((groupFold items).map Prod.fst).Nodup := by
      rw [groupFold_eq]; exact hgf.1
    have hval := entry_keySum (groupFold items) hnd e he2
    have hsum : keySum (groupFold items) e.1 = keySum items e.1 := by
      rw [groupFold_eq, hgf.2.1 e.1, keySum_nil]
      ring
    rw [hval, hsum]

/-- Witness for the amended C7: on the tied input the view has at most 10
entries and assigns "A" the total 5 = 3 + 2. -/
theorem C7_top_products_witness :
    (topProductsView [("A", 3), ("B", 5), ("A", 2)]).length ≤ 10 ∧
    (5 : Int) = keySum [("A", 3), ("B", 5), ("A", 2)] "A" := by
  refine ⟨C7_top_products_amended.2.1 [("A", 3), ("B", 5), ("A", 2)], ?_⟩
  have h := C7_top_products_amended.2.2.2.2 [("A", 3), ("B", 5), ("A", 2)] ("A", 5) (by decide)
  simpa using h

/-- C9: the daily sales series is sorted ascending by calendar date, has at
most 30 entries, assigns each listed date the sum of `total_amount` over the
transactions of that date, lists only dates on which a transaction exists,
and retains the most recent dates: any transaction's date is either in the
series or no later than every listed date. -/
theorem C9_daily_sales_series (txs : List SalesRow) :
    List.Pairwise (fun a b => a.1 ≤ b.1) (salesSeries txs) ∧
    (salesSeries txs).length ≤ 30 ∧
    (∀ e ∈ salesSeries txs, e.2 = daySum txs e.1) ∧
    (∀ e ∈ salesSeries txs, e.1 ∈ txs.map (fun t => dateOf t.timestamp)) ∧
    (∀ t ∈ txs, dateOf t.timestamp ∈ (salesSeries txs).map Prod.fst ∨
      ∀ e ∈ salesSeries txs, dateOf t.timestamp ≤ e.1) := by
  have hkeep : ∀ x y : Nat × Int, decide (x.1 ≤ y.1) = true → x.1 ≤ y.1 :=
    fun x y h => of_decide_eq_true h
  have hflip : ∀ x y : Nat × Int, decide (x.1 ≤ y.1) = false → y.1 ≤ x.1 :=
    fun x y h => le_of_not_le (of_decide_eq_false h)
  have htrans : ∀ a b c : Nat × Int, a.1 ≤ b.1 → b.1 ≤ c.1 → a.1 ≤ c.1 :=
    fun a b c hab hbc => le_trans hab hbc
  have hgf := groupFold_aux (txs.map (fun t => (dateOf t.timestamp, t.total_amount)))
    ([] : List (Nat × Int)) (by simp)
  have hnd : ((groupFold (txs.map (fun t => (dateOf t.timestamp, t.total_amount)))).map
      Prod.fst).Nodup := by
    rw [groupFold_eq]; exact hgf.1
  have hpair := pairwise_sortStable (fun a b : Nat × Int => a.1 ≤ b.1)
    (fun a b => decide (a.1 ≤ b.1)) hkeep hflip htrans
    (groupFold (txs.map (fun t => (dateOf t.timestamp, t.total_amount))))
  have hperm := perm_sortStable (fun a b : Nat × Int => decide (a.1 ≤ b.1))
    (groupFold (txs.map (fun t => (dateOf t.timestamp, t.total_amount))))
  refine ⟨?_, ?_, ?_, ?_, ?_⟩
  · simp only [salesSeries, takeLast]
    exact List.Pairwise.sublist (List.drop_sublist _ _) hpair
  · simp only [salesSeries, takeLast, List.length_drop]
    omega
  · intro e he
    simp only [salesSeries, takeLast] at he
    have he1 := List.drop_subset _ _ he
    have he2 := hperm.mem_iff.mp he1
    have hval := entry_keySum _ hnd e he2
    rw [hval, groupFold_eq, hgf.2.1 e.1, keySum_nil, keySum_salesMap]
    ring
  · intro e he
    simp only [salesSeries, takeLast] at he
    have he1 := List.drop_subset _ _ he
    have he2 := hperm.mem_iff.mp he1
    have hkey : e.1 ∈ (groupFold (txs.map (fun t =>
        (dateOf t.timestamp, t.total_amount)))).map Prod.fst :=
      List.mem_map_of_mem Prod.fst he2
    rw [groupFold_eq] at hkey
    rcases (hgf.2.2 e.1).mp hkey with h | h
    · cases h
    · simpa [List.map_map, Function.comp] using h
  · intro t ht
    have hraw : dateOf t.timestamp ∈
        (txs.map (fun t => (dateOf t.timestamp, t.total_amount))).map Prod.fst := by
      exact List.mem_map.mpr ⟨(dateOf t.timestamp, t.total_amount),
        List.mem_map_of_mem _ ht, rfl⟩
    have hkey : dateOf t.timestamp ∈ (groupFold (txs.map (fun t =>
        (dateOf t.timestamp, t.total_amount)))).map Prod.fst := by
      rw [groupFold_eq]
      exact (hgf.2.2 (dateOf t.timestamp)).mpr (Or.inr hraw)
    have hsrt : dateOf t.timestamp ∈ (sortStable (fun a b : Nat × Int => decide (a.1 ≤ b.1))
        (groupFold (txs.map (fun t => (dateOf t.timestamp, t.total_amount))))).map
        Prod.fst :=
      ((hperm.map Prod.fst).mem_iff).mpr hkey
    rcases List.mem_map.mp hsrt with ⟨e, hesrt, he1⟩
    have hsplit := List.take_append_drop
      ((sortStable (fun a b : Nat × Int => decide (a.1 ≤ b.1))
        (groupFold (txs.map (fun t => (dateOf t.timestamp, t.total_amount))))).length - 30)
      (sortStable (fun a b : Nat × Int => decide (a.1 ≤ b.1))
        (groupFold (txs.map (fun t => (dateOf t.timestamp, t.total_amount)))))
    have hpair2 : List.Pairwise (fun a b : Nat × Int => a.1 ≤ b.1)
        (List.take ((sortStable (fun a b : Nat × Int => decide (a.1 ≤ b.1))
            (groupFold (txs.map (fun t => (dateOf t.timestamp, t.total_amount))))).length - 30)
          (sortStable (fun a b : Nat × Int => decide (a.1 ≤ b.1))
            (groupFold (txs.map (fun t => (dateOf t.timestamp, t.total_amount))))) ++
          List.drop ((sortStable (fun a b : Nat × Int => decide (a.1 ≤ b.1))
            (groupFold (txs.map (fun t => (dateOf t.timestamp, t.total_amount))))).length - 30)
          (sortStable (fun a b : Nat × Int => decide (a.1 ≤ b.1))
            (groupFold (txs.map (fun t => (dateOf t.timestamp, t.total_amount)))))) := by
      rw [hsplit]
      exact hpair
    rcases List.mem_append.mp (by rw [hsplit]; exact hesrt) with hetake | hedrop
    · right
      intro e2 he2
      simp only [salesSeries, takeLast] at he2
      have := (List.pairwise_append.mp hpair2).2.2 e hetake e2 he2
      rw [← he1]
      exact this
    · left
      simp only [salesSeries, takeLast]
      rw [← he1]
      exact List.mem_map_of_mem Prod.fst hedrop

/-- Witness for C9 on three concrete transactions (two on day 3, one on
day 0): the series has at most 30 entries and day 3's entry sums to
100 + 50 = 150. -/
theorem C9_daily_sales_witness :
    (salesSeries [⟨86400000 * 3 + 5, 100⟩, ⟨86400000 * 3 + 9, 50⟩, ⟨10, 7⟩]).length ≤ 30 ∧
    (150 : Int) = daySum [⟨86400000 * 3 + 5, 100⟩, ⟨86400000 * 3 + 9, 50⟩, ⟨10, 7⟩] 3 := by
  refine ⟨(C9_daily_sales_series _).2.1, ?_⟩
  have h := (C9_daily_sales_series
    [⟨86400000 * 3 + 5, 100⟩, ⟨86400000 * 3 + 9, 50⟩, ⟨10, 7⟩]).2.2.1 (3, 150) (by decide)
  simpa using h

end Kedai
